import Mathlib

/-!
Shallow embedding of the ping-api Lectio scraping service.

Strings are modelled as `List Char` (`Chars`); every string operation used by
the source (split, trim, prefix tests, regex-like scans) is defined here over
`Chars`, mirroring the JavaScript semantics of the corresponding call.
Instants (`Timestamp`) are modelled as whole minutes since the Unix epoch, as
an `Int`; the server is assumed to run with a UTC local timezone, which the
source itself assumes (see the timezone note on `parseDateTime` in
`src/app/lectio/student/scrapeWeek/route.ts`).
-/

namespace PingApi

abbrev Chars := List Char

def str (s : String) : Chars := s.toList

/-- Whitespace test used to model the JavaScript `trim` and the regex `\s`. -/
def isWs (c : Char) : Bool := c == ' ' || c == '\t' || c == '\r' || c == '\n'

/-- Model of JavaScript `String.prototype.trim`. -/
def trimChars (l : Chars) : Chars :=
  ((l.dropWhile isWs).reverse.dropWhile isWs).reverse

/-- Model of JavaScript `includes`: does `pat` occur as a contiguous run of `l`? -/
def infixOf (pat : Chars) : Chars → Bool
  | [] => pat.isEmpty
  | c :: t => pat.isPrefixOf (c :: t) || infixOf pat t

/-- Model of JavaScript `startsWith`. -/
def startsWithChars (l pat : Chars) : Bool := pat.isPrefixOf l

/-- Model of JavaScript `replace(pat, "")` with a string pattern: remove the
first occurrence of `pat`, if any. -/
def replaceFirst (pat : Chars) : Chars → Chars
  | [] => []
  | c :: t => if pat.isPrefixOf (c :: t) then (c :: t).drop pat.length
              else c :: replaceFirst pat t

/-- Model of JavaScript `split("\n")`. -/
def splitLinesAux (acc : Chars) : Chars → List Chars
  | [] => [acc.reverse]
  | c :: rest => if c == '\n' then acc.reverse :: splitLinesAux [] rest
                 else splitLinesAux (c :: acc) rest

def splitLines (l : Chars) : List Chars := splitLinesAux [] l

/-- Model of `Array.prototype.join(" ")`. -/
def joinSpace : List Chars → Chars
  | [] => []
  | [l] => l
  | l :: rest => l ++ ' ' :: joinSpace rest

/-! ## Cookie parsing (`parseAllCookies` in `src/lib/lectio.ts`)

The Set-Cookie header is split by `setCookieHeader.split(/,(?=[^,]+=)/)`:
a comma is a split point exactly when the characters that follow it contain,
before the next comma, an `=` at offset at least one. -/

/-- The regex lookahead `(?=[^,]+=)`: the run of non-comma characters starting
here must contain `=` at an offset of at least one character. -/
def lookaheadNameEq (r : Chars) : Bool :=
  match r.takeWhile (fun c => c != ',') with
  | [] => false
  | _ :: t => t.any (fun c => c == '=')

def splitCookiesAux (acc : Chars) : Chars → List Chars
  | [] => [acc.reverse]
  | c :: rest =>
    if c == ',' then
      if lookaheadNameEq rest then acc.reverse :: splitCookiesAux [] rest
      else splitCookiesAux (c :: acc) rest
    else splitCookiesAux (c :: acc) rest

/-- Model of `setCookieHeader.split(/,(?=[^,]+=)/)`. -/
def splitSetCookie (l : Chars) : List Chars := splitCookiesAux [] l

/-- Model of matching `/^([^=]+)=([^;]*)/` against one split part: the name is
the (nonempty) run before the first `=`, the value the run after it up to the
first `;`. -/
def nameValueOf (part : Chars) : Option (Chars × Chars) :=
  if (part.takeWhile (fun c => c != '=')).isEmpty then none
  else
    match part.drop (part.takeWhile (fun c => c != '=')).length with
    | '=' :: tail =>
      some (part.takeWhile (fun c => c != '='), tail.takeWhile (fun c => c != ';'))
    | _ => none

def charLower (c : Char) : Char :=
  if 'A' ≤ c && c ≤ 'Z' then Char.ofNat (c.toNat + 32) else c

def lowerPrefixOf (pat : Chars) (l : Chars) : Bool :=
  pat.isPrefixOf (l.map charLower)

/-- Model of the first, `expires=`-based branch of `parseExpiration`: the
capture of the first case-insensitive match of `/expires=([^;]+)/i`.  The
conversion of the captured text to an ISO date — and the clock-dependent
`max-age` fallback — is abstracted to the raw captured attribute text; the
claims under verification concern only the split structure and the tuple
count, never the expiry value. -/
def expiresRawOf : Chars → Option Chars
  | [] => none
  | c :: t =>
    if lowerPrefixOf (str "expires=") (c :: t) then
      match ((c :: t).drop 8).takeWhile (fun x => x != ';') with
      | [] => expiresRawOf t
      | cap => some cap
    else expiresRawOf t

structure CookieVal where
  value : Chars
  expiresRaw : Option Chars
deriving DecidableEq, Repr

/-- JavaScript object assignment `cookies[name] = v`: replace in place if the
key exists, else append (insertion order is preserved). -/
def setAssoc : List (Chars × CookieVal) → Chars → CookieVal → List (Chars × CookieVal)
  | [], k, v => [(k, v)]
  | (k0, v0) :: t, k, v =>
    if k0 = k then (k0, v) :: t else (k0, v0) :: setAssoc t k v

def collectCookies : List Chars → List (Chars × CookieVal) → List (Chars × CookieVal)
  | [], acc => acc
  | part :: rest, acc =>
    match nameValueOf part with
    | some (n, v) =>
        collectCookies rest
          (setAssoc acc (trimChars n) ⟨trimChars v, expiresRawOf part⟩)
    | none => collectCookies rest acc

/-- Model of `parseAllCookies` in `src/lib/lectio.ts`. -/
def parseAllCookies (header : Chars) : List (Chars × CookieVal) :=
  collectCookies (splitSetCookie header) []

/-! ## SessionFetcher (`fetchLectioWithCookies` in `src/lib/lectio.ts`)

The network is modelled as the initial response together with a map from the
redirect-hop counter to the response obtained by the follow-up fetch made
after incrementing the counter to that value. -/

structure HttpResponse where
  status : Nat
  location : Option Chars
  body : Chars
deriving DecidableEq, Repr

/-- The five statuses the redirect loop follows. -/
def isRedirectStatus (s : Nat) : Bool :=
  s == 301 || s == 302 || s == 303 || s == 307 || s == 308

/-- `response.ok` of the Fetch API: status in the inclusive range 200–299. -/
def respOk (r : HttpResponse) : Bool := 200 ≤ r.status && r.status ≤ 299

def maxRedirects : Nat := 5

/-- The manual redirect loop: while the response has one of the five redirect
statuses and fewer than `maxRedirects` hops were taken, and a non-empty
Location header is present, increment the counter and fetch again.  `net i`
is the response of the fetch performed after the counter became `i + 1`.
The structural `fuel` argument is always called with `maxRedirects`, which
dominates the loop guard `count < maxRedirects`, so the fuel never runs out
before the guard stops the loop. -/
def followRedirects (net : Nat → HttpResponse) :
    Nat → HttpResponse → Nat → HttpResponse × Nat
  | 0, r, count => (r, count)
  | fuel + 1, r, count =>
    if isRedirectStatus r.status && count < maxRedirects then
      match r.location with
      | none => (r, count)
      | some l =>
        if l.isEmpty then (r, count)
        else followRedirects net fuel (net count) (count + 1)
    else (r, count)

/-- The three robot/verification marker substrings. -/
def hasRobotMarker (body : Chars) : Bool :=
  infixOf (str "Af hensyn til sikkerheden") body ||
  infixOf (str "ikke er en robot") body ||
  infixOf (str "captcha") body

inductive FetchOutcome where
  /-- `throw new Error("Failed to fetch Lectio page: ...")` carrying the status. -/
  | httpError (status : Nat)
  /-- `throw new Error("Robot detection triggered - ...")`. -/
  | sessionInvalid
  /-- The html body returned to the caller. -/
  | success (html : Chars)
deriving DecidableEq, Repr

/-- Model of the response handling of `fetchLectioWithCookies`
(`src/lib/lectio.ts`): follow redirects, then test `finalResponse.ok`, then
scan the body for robot markers. -/
def fetchLectioWithCookies (r0 : HttpResponse) (net : Nat → HttpResponse) :
    FetchOutcome :=
  let fr := (followRedirects net maxRedirects r0 0).1
  if !respOk fr then .httpError fr.status
  else if hasRobotMarker fr.body then .sessionInvalid
  else .success fr.body

/-! ## Calendar arithmetic

`Timestamp`s are whole minutes since the Unix epoch.  `daysFromCivil` and
`civilFromDays` are the standard proleptic-Gregorian conversions (floored
division), modelling the arithmetic JavaScript `Date` performs on UTC
components. -/

def daysFromCivil (y m d : Int) : Int :=
  let yy := if m ≤ 2 then y - 1 else y
  let era := Int.fdiv yy 400
  let yoe := yy - era * 400
  let mp := Int.emod (m + 9) 12
  let doy := Int.fdiv (153 * mp + 2) 5 + d - 1
  let doe := yoe * 365 + Int.fdiv yoe 4 - Int.fdiv yoe 100 + doy
  era * 146097 + doe - 719468

def civilFromDays (z : Int) : Int × Int × Int :=
  let z2 := z + 719468
  let era := Int.fdiv z2 146097
  let doe := z2 - era * 146097
  let yoe := Int.fdiv (doe - Int.fdiv doe 1460 + Int.fdiv doe 36524 - Int.fdiv doe 146096) 365
  let y := yoe + era * 400
  let doy := doe - (365 * yoe + Int.fdiv yoe 4 - Int.fdiv yoe 100)
  let mp := Int.fdiv (5 * doy + 2) 153
  let d := doy - Int.fdiv (153 * mp + 2) 5 + 1
  let m := mp + (if mp < 10 then 3 else -9)
  (if m ≤ 2 then y + 1 else y, m, d)

/-- `Date.UTC(year, month - 1, day, hour, minute)` in minutes since the epoch,
with the JavaScript normalization of out-of-range components (months carry
into years, days/hours/minutes are plain offsets). -/
def utcMinutes (y m d h mi : Int) : Int :=
  let mi0 := m - 1
  let ym := y + Int.fdiv mi0 12
  let mm := Int.emod mi0 12 + 1
  (daysFromCivil ym mm 1 + (d - 1)) * 1440 + h * 60 + mi

/-- `date.setHours(h, mi)` under a UTC local timezone: keep the calendar day,
replace the hour and minute (hours beyond 23 carry into following days, as in
JavaScript). -/
def setHoursMinutes (t : Int) (h mi : Int) : Int :=
  Int.fdiv t 1440 * 1440 + h * 60 + mi

/-! ## Danish date/time parsing (`parseDateTime` in
`src/app/lectio/student/scrapeWeek/route.ts`)

The regex `(\d{2})\/(\d{2})-(\d{4})\s+(\d{2}):(\d{2})` is modelled as a
first-match scan: at each start offset try the fixed-shape pattern (the
character classes are disjoint, so the regex needs no backtracking). -/

def chDigit (c : Char) : Bool := '0' ≤ c && c ≤ '9'

def digitVal (c : Char) : Nat := c.toNat - 48

def twoDigits : Chars → Option (Nat × Chars)
  | a :: b :: rest =>
    if chDigit a && chDigit b then some (10 * digitVal a + digitVal b, rest)
    else none
  | _ => none

def expectCh (c : Char) : Chars → Option Chars
  | x :: rest => if x == c then some rest else none
  | _ => none

def wsPlus : Chars → Option Chars
  | x :: rest => if isWs x then some (rest.dropWhile isWs) else none
  | _ => none

/-- Attempt the date/time pattern at the start of `l`:
`dd / dd - dddd \s+ dd : dd`, capturing day, month, year, hour, minute. -/
def dtMatchAt (l : Chars) : Option (Nat × Nat × Nat × Nat × Nat) := do
  let (d, l) ← twoDigits l
  let l ← expectCh '/' l
  let (m, l) ← twoDigits l
  let l ← expectCh '-' l
  let (y1, l) ← twoDigits l
  let (y2, l) ← twoDigits l
  let l ← wsPlus l
  let (h, l) ← twoDigits l
  let l ← expectCh ':' l
  let (mi, _) ← twoDigits l
  pure (d, m, 100 * y1 + y2, h, mi)

def findDT : Chars → Option (Nat × Nat × Nat × Nat × Nat)
  | [] => none
  | c :: t =>
    match dtMatchAt (c :: t) with
    | some r => some r
    | none => findDT t

/-- Model of `parseDateTime`: first match of the date/time regex, converted
by `Date.UTC` to an instant; `null` when the regex does not match.  A string
such as `"20/10-2025 Hele dagen"` has no `HH:MM` part and therefore does not
match. -/
def parseDateTime (s : Chars) : Option Int :=
  match findDT s with
  | none => none
  | some (d, m, y, h, mi) => some (utcMinutes y m d h mi)

/-- Attempt the end-time pattern `til \s+ dd : dd` at the start of `l`. -/
def tilMatchAt (l : Chars) : Option (Nat × Nat) := do
  let l ← expectCh 't' l
  let l ← expectCh 'i' l
  let l ← expectCh 'l' l
  let l ← wsPlus l
  let (h, l) ← twoDigits l
  let l ← expectCh ':' l
  let (mi, _) ← twoDigits l
  pure (h, mi)

def findTil : Chars → Option (Nat × Nat)
  | [] => none
  | c :: t =>
    match tilMatchAt (c :: t) with
    | some r => some r
    | none => findTil t

/-- The end instant of an event: the first `til HH:MM` of the time string put
on the start instant's calendar day, else start plus two hours
(`timeStr.match(/til\s+(\d{2}):(\d{2})/)` and the `setHours` calls in the
route). -/
def eventEndAt (timeStr : Chars) (startAt : Int) : Int :=
  match findTil timeStr with
  | some (h, mi) => setHoursMinutes startAt h mi
  | none => startAt + 120

/-! ## Tooltip line grammar (the `POST` handler of
`src/app/lectio/student/scrapeWeek/route.ts`, lines 164–245) -/

inductive EventStatus where
  | ok
  | cancelled
  | moved
deriving DecidableEq, Repr

/-- A line is consumed as the time string when it contains `" til "` or
`"Hele dagen"`. -/
def isTimeLine (l : Chars) : Bool :=
  infixOf (str " til ") l || infixOf (str "Hele dagen") l

/-- The mutable locals of the tooltip loop. -/
structure TooltipFields where
  time : Chars := []
  hold : Chars := []
  teacher : Option Chars := none
  room : Option Chars := none
  note : Option Chars := none
  homework : Option Chars := none
  title : Option Chars := none
deriving DecidableEq, Repr

def labelList : List Chars :=
  [str "Hold:", str "Lærer:", str "Lærere:", str "Lokale:", str "Note:",
   str "Lektier:", str "Elever:"]

/-- The note section: the rest of the `Note:` line plus following lines up to
(excluding) a blank line or a `Lektier:` line, joined by single spaces. -/
def noteJoin (line : Chars) (rest : List Chars) : Chars :=
  trimChars (joinSpace (trimChars (replaceFirst (str "Note:") line) ::
    rest.takeWhile (fun l => !startsWithChars l (str "Lektier:") && !l.isEmpty)))

/-- The homework section: the rest of the `Lektier:` line plus every
remaining non-empty line, joined by single spaces. -/
def homeworkJoin (line : Chars) (rest : List Chars) : Chars :=
  trimChars (joinSpace (trimChars (replaceFirst (str "Lektier:") line) ::
    rest.filter (fun l => !l.isEmpty)))

def teacherValue (line : Chars) : Chars :=
  trimChars (replaceFirst (str "Lærere:") (replaceFirst (str "Lærer:") line))

/-- One iteration of the tooltip loop: `first` is true exactly when the line
index is 0, and `rest` holds the lines after the current one (used by the
lookahead of the note and homework sections). -/
def classifyLine (first : Bool) (st : TooltipFields) (line : Chars)
    (rest : List Chars) : TooltipFields :=
  if isTimeLine line then { st with time := line }
  else if labelList.all (fun lab => !startsWithChars line lab) && !line.isEmpty &&
      !first && st.title = none then
    { st with title := some line }
  else if startsWithChars line (str "Hold:") then
    { st with hold := trimChars (replaceFirst (str "Hold:") line) }
  else if startsWithChars line (str "Lærer:") || startsWithChars line (str "Lærere:") then
    { st with teacher := some (teacherValue line) }
  else if startsWithChars line (str "Lokale:") then
    { st with room := some (trimChars (replaceFirst (str "Lokale:") line)) }
  else if startsWithChars line (str "Note:") then
    { st with note := some (noteJoin line rest) }
  else if startsWithChars line (str "Lektier:") then
    { st with homework := some (homeworkJoin line rest) }
  else st

def fieldsLoop (first : Bool) (st : TooltipFields) : List Chars → TooltipFields
  | [] => st
  | line :: rest => fieldsLoop false (classifyLine first st line rest) rest

/-- The trimmed tooltip lines: `tooltip.split("\n").map(l => l.trim())`. -/
def tooltipLines (tooltip : Chars) : List Chars :=
  (splitLines tooltip).map trimChars

/-- The status prelude: if line 0 is `Ændret!` or `Aflyst!` it is shifted off
and the status set to MOVED or CANCELLED with `lastChangedAt = now`. -/
def statusShift (lines : List Chars) : EventStatus × Bool × List Chars :=
  match lines with
  | l0 :: rest =>
    if l0 = str "Ændret!" then (.moved, true, rest)
    else if l0 = str "Aflyst!" then (.cancelled, true, rest)
    else (.ok, false, l0 :: rest)
  | [] => (.ok, false, [])

/-- The lines the field loop runs over, after the optional status shift. -/
def postStatusLines (tooltip : Chars) : List Chars :=
  (statusShift (tooltipLines tooltip)).2.2

structure ScheduleEvent where
  id : Chars
  startAt : Int
  endAt : Int
  subject : Chars
  room : Option Chars
  teacher : Option Chars
  classKey : Chars
  status : EventStatus
  lastChangedAt : Option Int
  absId : Chars
  time : Chars
  hold : Chars
  note : Option Chars
  homework : Option Chars
  title : Option Chars
deriving DecidableEq, Repr

/-- A schedule tile: the `data-brikid` attribute and the `data-tooltip`
attribute (absent attribute modelled as `none`; the empty string is also
skipped by the `if (!tooltip) return` guard). -/
structure Tile where
  brikid : Chars
  tooltip : Option Chars
deriving DecidableEq, Repr

/-- Build one `ScheduleEvent` from a tile at instant `now`, or `none` when the
tile is skipped (missing/empty tooltip, or unparsable start time). -/
def buildEvent (now : Int) (tile : Tile) : Option ScheduleEvent :=
  match tile.tooltip with
  | none => none
  | some tooltip =>
    if tooltip.isEmpty then none
    else
      let sh := statusShift (tooltipLines tooltip)
      let status := sh.1
      let stamped := sh.2.1
      let lines := sh.2.2
      let st := fieldsLoop true {} lines
      let absId := replaceFirst (str "ABS") tile.brikid
      match parseDateTime st.time with
      | none => none
      | some startAt =>
        some {
          id := absId
          startAt := startAt
          endAt := eventEndAt st.time startAt
          subject := if !st.hold.isEmpty then st.hold
                     else match st.title with
                          | some t => if !t.isEmpty then t else str "Ukendt"
                          | none => str "Ukendt"
          room := st.room
          teacher := st.teacher
          classKey := if !st.hold.isEmpty then st.hold else str "unknown"
          status := status
          lastChangedAt := if stamped then some now else none
          absId := absId
          time := st.time
          hold := st.hold
          note := st.note
          homework := st.homework
          title := st.title }

/-- One day column: the `data-date` attribute and its schedule tiles. -/
structure DayCell where
  date : Chars
  tiles : List Tile
deriving DecidableEq, Repr

/-- `eventsByDate[date].push(event)`, creating the bucket on first use
(JavaScript object keys keep insertion order). -/
def pushAssoc (m : List (Chars × List ScheduleEvent)) (k : Chars)
    (e : ScheduleEvent) : List (Chars × List ScheduleEvent) :=
  match m with
  | [] => [(k, [e])]
  | (k0, es) :: t =>
    if k0 = k then (k0, es ++ [e]) :: t else (k0, es) :: pushAssoc t k e

def addTiles (now : Int) (date : Chars)
    (m : List (Chars × List ScheduleEvent)) :
    List Tile → List (Chars × List ScheduleEvent)
  | [] => m
  | tile :: rest =>
    match buildEvent now tile with
    | some e => addTiles now date (pushAssoc m date e) rest
    | none => addTiles now date m rest

def addCells (now : Int) (m : List (Chars × List ScheduleEvent)) :
    List DayCell → List (Chars × List ScheduleEvent)
  | [] => m
  | cell :: rest =>
    if cell.date.isEmpty then addCells now m rest
    else addCells now (addTiles now cell.date m cell.tiles) rest

/-- The parsing phase of the `POST` handler: the `eventsByDate` mapping built
from the extracted day cells at instant `now`.  The cheerio extraction of
`td[data-date]` cells and their `a.s2skemabrik[data-brikid]` tiles is a pure
function of the fetched HTML and is modelled as the already-extracted
`DayCell` list. -/
def parseSchedule (cells : List DayCell) (now : Int) :
    List (Chars × List ScheduleEvent) :=
  addCells now [] cells

/-! ## Canonical serialization and the day hash

`JSON.stringify(events)` over the event records built by the route:
insertion-order fields, optional fields absent when `undefined` (the
`removeUndefined` helper), Firestore `Timestamp`s as their
`_seconds`/`_nanoseconds` components. -/

def natToRevChars : Nat → Nat → Chars
  | 0, _ => []
  | fuel + 1, n =>
    if n = 0 then [] else Char.ofNat (48 + n % 10) :: natToRevChars fuel (n / 10)

def natChars (n : Nat) : Chars :=
  if n = 0 then ['0'] else (natToRevChars (n + 1) n).reverse

def intChars (i : Int) : Chars :=
  if i < 0 then '-' :: natChars i.natAbs else natChars i.natAbs

def jsonEscapeChar (c : Char) : Chars :=
  if c == '"' then ['\\', '"']
  else if c == '\\' then ['\\', '\\']
  else if c == '\n' then ['\\', 'n']
  else [c]

def jsonStr (v : Chars) : Chars :=
  '"' :: v.foldr (fun c acc => jsonEscapeChar c ++ acc) ['"']

def joinComma : List Chars → Chars
  | [] => []
  | [x] => x
  | x :: rest => x ++ ',' :: joinComma rest

/-- A Firestore `Timestamp` as `JSON.stringify` renders it. -/
def jsonTimestamp (t : Int) : Chars :=
  str "\x7b\"_seconds\":" ++ intChars (60 * t) ++ str ",\"_nanoseconds\":0\x7d"

def statusChars : EventStatus → Chars
  | .ok => str "OK"
  | .cancelled => str "CANCELLED"
  | .moved => str "MOVED"

def jsonField (name : String) (v : Chars) : Chars :=
  jsonStr (str name) ++ ':' :: v

/-- `JSON.stringify` of one event record, in the field order of the object
literal in the route; `undefined` fields (here `none`) are dropped, as
`removeUndefined` does before the write. -/
def serializeEvent (e : ScheduleEvent) : Chars :=
  str "\x7b" ++
  joinComma (List.filterMap id [
    some (jsonField "id" (jsonStr e.id)),
    some (jsonField "startAt" (jsonTimestamp e.startAt)),
    some (jsonField "endAt" (jsonTimestamp e.endAt)),
    some (jsonField "subject" (jsonStr e.subject)),
    e.room.map (fun v => jsonField "room" (jsonStr v)),
    e.teacher.map (fun v => jsonField "teacher" (jsonStr v)),
    some (jsonField "classKey" (jsonStr e.classKey)),
    some (jsonField "status" (jsonStr (statusChars e.status))),
    e.lastChangedAt.map (fun v => jsonField "lastChangedAt" (jsonTimestamp v)),
    some (jsonField "absId" (jsonStr e.absId)),
    some (jsonField "time" (jsonStr e.time)),
    some (jsonField "hold" (jsonStr e.hold)),
    e.note.map (fun v => jsonField "note" (jsonStr v)),
    e.homework.map (fun v => jsonField "homework" (jsonStr v)),
    e.title.map (fun v => jsonField "title" (jsonStr v))]) ++
  str "\x7d"

def serializeEvents (es : List ScheduleEvent) : Chars :=
  str "[" ++ joinComma (es.map serializeEvent) ++ str "]"

/-- The per-day content hash,
`createHash("sha256").update(JSON.stringify(events)).digest("hex")`.  The
SHA-256 digest is modelled by its preimage: every claim under verification
depends only on the digest being a deterministic function of the serialized
bytes, never on a property of the compression function. -/
def dayHash (es : List ScheduleEvent) : Chars := serializeEvents es

/-! ## Week keys (`getWeekKey` in `src/lib/utils.ts`) -/

def splitChAux (sep : Char) (acc : Chars) : Chars → List Chars
  | [] => [acc.reverse]
  | c :: rest => if c == sep then acc.reverse :: splitChAux sep [] rest
                 else splitChAux sep (c :: acc) rest

def allDigits (l : Chars) : Bool := !l.isEmpty && l.all chDigit

def digitsToNat (l : Chars) : Nat := l.foldl (fun n c => 10 * n + digitVal c) 0

def padTwo (l : Chars) : Chars := if l.length < 2 then '0' :: l else l

/-- `getWeekKey` on a date given as days since the epoch (UTC midnight):
move to the Thursday of the ISO week, count weeks from January 4 of that
Thursday's year, and render `WWYYYY`. -/
def getWeekKey (z : Int) : Chars :=
  let dayNumber := Int.emod (Int.emod (z + 4) 7 + 6) 7
  let target := z - dayNumber + 3
  let ty := (civilFromDays target).1
  let firstThursday := daysFromCivil ty 1 4
  let weekNumber := Int.fdiv (target - firstThursday + 1 + 6) 7
  padTwo (intChars weekNumber) ++ intChars ty

/-- `getWeekKeyFromDateString`: parse the `YYYY-MM-DD` key and apply
`getWeekKey`; a string `new Date` cannot parse makes every component NaN and
the rendered key `"NaNNaN"`. -/
def getWeekKeyFromDateString (dateStr : Chars) : Chars :=
  match splitChAux '-' [] dateStr with
  | [y, m, d] =>
    if allDigits y && allDigits m && allDigits d then
      getWeekKey (daysFromCivil (digitsToNat y) (digitsToNat m) (digitsToNat d))
    else str "NaNNaN"
  | _ => str "NaNNaN"

/-! ## ChangeDetector & Persister (the `POST` handler, lines 298–335)

The Firestore document tree is modelled as a map from the path
`(schoolId, studentId, date)` to the stored day record; the batch is the list
of operations the handler adds before `batch.commit()`. -/

structure ScheduleDay where
  date : Chars
  weekKey : Chars
  schoolId : Chars
  studentKey : Chars
  updatedAt : Int
  hash : Chars
  events : List ScheduleEvent
deriving DecidableEq, Repr

abbrev DocKey := Chars × Chars × Chars

inductive WriteOp where
  /-- `batch.set(docRef, scheduleDay)`: wholesale replacement of the document. -/
  | set (key : DocKey) (day : ScheduleDay)
deriving DecidableEq, Repr

def writeKey : WriteOp → DocKey
  | .set k _ => k

def mkScheduleDay (schoolId studentId : Chars) (now : Int) (date : Chars)
    (events : List ScheduleEvent) : ScheduleDay :=
  { date := date
    weekKey := getWeekKeyFromDateString date
    schoolId := schoolId
    studentKey := studentId
    updatedAt := now
    hash := dayHash events
    events := events }

/-- The write batch built from `eventsByDate`: one full-replacement `set` per
date with a non-empty event list.  No stored document is read. -/
def persistOps (schoolId studentId : Chars) (now : Int) :
    List (Chars × List ScheduleEvent) → List WriteOp
  | [] => []
  | (date, events) :: rest =>
    if events.isEmpty then persistOps schoolId studentId now rest
    else .set (schoolId, studentId, date) (mkScheduleDay schoolId studentId now date events) ::
      persistOps schoolId studentId now rest

abbrev Store := DocKey → Option ScheduleDay

def applyOp (s : Store) : WriteOp → Store
  | .set k v => fun k2 => if k2 = k then some v else s k2

def applyOps (s : Store) : List WriteOp → Store
  | [] => s
  | op :: rest => applyOps (applyOp s op) rest

/-- One scrape invocation from the parse input on: build `eventsByDate`,
build the batch, commit it.  Returns the committed batch and the store after
the commit. -/
def scrapeInvocation (store : Store) (schoolId studentId : Chars) (now : Int)
    (cells : List DayCell) : List WriteOp × Store :=
  let ops := persistOps schoolId studentId now (parseSchedule cells now)
  (ops, applyOps store ops)

/-! ## JobFanout (the scheduler route, `src/unnamed/part_004`) -/

def BATCH_SIZE_LIMIT : Nat := 100

/-- One `lectioCreds` document projected to `studentId`/`schoolId`; a missing
field is `none` and, like the empty string, is falsy under the
`!student?.studentId || !student?.schoolId` guard. -/
structure FanDoc where
  studentId : Option Chars
  schoolId : Option Chars
deriving DecidableEq, Repr

def falsyField : Option Chars → Bool
  | none => true
  | some s => s.isEmpty

def fanValid (d : FanDoc) : Bool :=
  !falsyField d.studentId && !falsyField d.schoolId

/-- `JSON.stringify({studentId, schoolId})`, the published job body. -/
def fanBody (d : FanDoc) : Chars :=
  str "\x7b" ++ jsonField "studentId" (jsonStr (d.studentId.getD [])) ++
  ',' :: jsonField "schoolId" (jsonStr (d.schoolId.getD [])) ++ str "\x7d"

structure FanResult where
  calls : List (List Chars)
  total : Nat
  skipped : Nat
deriving DecidableEq, Repr

/-- The scheduler loop: push a job per valid document, flush a publish call
when the batch reaches `BATCH_SIZE_LIMIT`, count skipped documents, and
flush the remainder after the loop. -/
def fanGo : List FanDoc → List Chars → Nat → Nat → FanResult
  | [], batch, total, skipped =>
    if batch.isEmpty then { calls := [], total := total, skipped := skipped }
    else { calls := [batch], total := total + batch.length, skipped := skipped }
  | d :: ds, batch, total, skipped =>
    if fanValid d then
      let b2 := batch ++ [fanBody d]
      if BATCH_SIZE_LIMIT ≤ b2.length then
        let r := fanGo ds [] (total + b2.length) skipped
        { r with calls := b2 :: r.calls }
      else fanGo ds b2 total skipped
    else fanGo ds batch total (skipped + 1)

/-- The fan-out `POST` handler from the document list on. -/
def fanout (docs : List FanDoc) : FanResult := fanGo docs [] 0 0

/-! ## Concrete inputs used by the claim theorems -/

def emptyStore : Store := fun _ => none

/-- A plain tooltip: time line, then a class label. -/
def exPlainTooltip : Chars := str "20/10-2025 08:10 til 09:50\nHold: 2a"

def exPlainCells : List DayCell :=
  [{ date := str "2025-10-20",
     tiles := [{ brikid := str "ABS11", tooltip := some exPlainTooltip }] }]

/-- A tooltip whose first line is the `Ændret!` status marker. -/
def exStatusTooltip : Chars := str "Ændret!\n20/10-2025 08:10 til 09:50\nHold: 2a"

def exStatusCells : List DayCell :=
  [{ date := str "2025-10-20",
     tiles := [{ brikid := str "ABS11", tooltip := some exStatusTooltip }] }]

/-- A non-2xx response whose body carries a robot marker. -/
def exRobot500 : HttpResponse := ⟨500, none, str "please solve the captcha"⟩

/-- A 2xx response whose body carries a robot marker. -/
def exRobot200 : HttpResponse := ⟨200, none, str "ikke er en robot"⟩

/-- A redirect response that points at itself forever. -/
def exRedirect : HttpResponse := ⟨302, some (str "/forward"), str ""⟩

/-- One cookie definition whose `Expires=` date is followed by a `path=/`
attribute, the exact shape named by the claim. -/
def exCookieHeader : Chars := str "a=1; Expires=Thu, 01 Jan 2026 00:00:00 GMT; path=/"

/-- A tooltip with two time-range lines. -/
def exTwoTimesTooltip : Chars :=
  str "Fag\n20/10-2025 08:10 til 09:50\n20/10-2025 10:00 til 11:30"

/-- A tooltip whose homework section is followed by a blank line and a
`Note:` line. -/
def exHomeworkTooltip : Chars := str "Lektier: a\n\nNote: b"

/-- A day with one all-day tile and one parsable tile. -/
def exAllDayCells : List DayCell :=
  [{ date := str "2025-10-20",
     tiles := [{ brikid := str "ABS1", tooltip := some (str "20/10-2025 Hele dagen\nHold: 2a") },
               { brikid := str "ABS2", tooltip := some exPlainTooltip }] }]

def exValidDoc : FanDoc := { studentId := some (str "12"), schoolId := some (str "7") }

def exInvalidDoc : FanDoc := { studentId := some (str "12"), schoolId := none }

/-! ## Helper lemmas -/

theorem applyOps_not_written (k : DocKey) :
    ∀ (ops : List WriteOp) (s : Store), k ∉ ops.map writeKey → applyOps s ops k = s k := by
  intro ops
  induction ops with
  | nil => intro s _; rfl
  | cons op rest ih =>
    intro s hk
    simp only [List.map_cons, List.mem_cons, not_or] at hk
    cases op with
    | set key day =>
      have hk1 : ¬ k = key := hk.1
      have h1 : applyOp s (.set key day) k = s k := by
        simp only [applyOp]
        rw [if_neg hk1]
      show applyOps (applyOp s (.set key day)) rest k = s k
      rw [ih _ hk.2, h1]

theorem applyOps_some (k : DocKey) :
    ∀ (ops : List WriteOp) (s : Store) (day : ScheduleDay), s k = some day →
      ∃ day2, applyOps s ops k = some day2 := by
  intro ops
  induction ops with
  | nil => intro s day h; exact ⟨day, h⟩
  | cons op rest ih =>
    intro s day h
    cases op with
    | set key v =>
      by_cases hkey : k = key
      · refine ih (applyOp s (.set key v)) v ?_
        simp [applyOp, hkey]
      · refine ih (applyOp s (.set key v)) day ?_
        simp only [applyOp]
        rw [if_neg hkey]
        exact h

theorem persistOps_mem (schoolId studentId : Chars) (now : Int) :
    ∀ (days : List (Chars × List ScheduleEvent)) (op : WriteOp),
      op ∈ persistOps schoolId studentId now days →
      ∃ date events, (date, events) ∈ days ∧ events ≠ [] ∧
        op = .set (schoolId, studentId, date)
          (mkScheduleDay schoolId studentId now date events) := by
  intro days
  induction days with
  | nil => intro op h; cases h
  | cons p rest ih =>
    intro op h
    obtain ⟨date, events⟩ := p
    by_cases he : events.isEmpty
    · simp only [persistOps, if_pos he] at h
      obtain ⟨d, es, hmem, hne, hop⟩ := ih op h
      exact ⟨d, es, List.mem_cons_of_mem _ hmem, hne, hop⟩
    · simp only [persistOps, if_neg he, List.mem_cons] at h
      rcases h with h | h
      · refine ⟨date, events, List.mem_cons_self _ _, ?_, h⟩
        simpa [List.isEmpty_iff] using he
      · obtain ⟨d, es, hmem, hne, hop⟩ := ih op h
        exact ⟨d, es, List.mem_cons_of_mem _ hmem, hne, hop⟩

theorem persistOps_length (schoolId studentId : Chars) (now : Int) :
    ∀ days : List (Chars × List ScheduleEvent),
      (persistOps schoolId studentId now days).length =
        (days.filter (fun p => !p.2.isEmpty)).length := by
  intro days
  induction days with
  | nil => rfl
  | cons p rest ih =>
    obtain ⟨date, events⟩ := p
    by_cases he : events.isEmpty
    · simp [persistOps, he, ih]
    · simp [persistOps, he, ih]

theorem pushAssoc_nonempty (k : Chars) (e : ScheduleEvent) :
    ∀ m : List (Chars × List ScheduleEvent), (∀ p ∈ m, p.2 ≠ []) →
      ∀ p ∈ pushAssoc m k e, p.2 ≠ [] := by
  intro m
  induction m with
  | nil =>
    intro _ p hp
    simp only [pushAssoc, List.mem_singleton] at hp
    subst hp; simp
  | cons q rest ih =>
    intro hm p hp
    obtain ⟨k0, es⟩ := q
    by_cases hk : k0 = k
    · simp only [pushAssoc, if_pos hk, List.mem_cons] at hp
      rcases hp with hp | hp
      · subst hp; simp
      · exact hm p (List.mem_cons_of_mem _ hp)
    · simp only [pushAssoc, if_neg hk, List.mem_cons] at hp
      rcases hp with hp | hp
      · subst hp; exact hm _ (List.mem_cons_self _ _)
      · exact ih (fun q hq => hm q (List.mem_cons_of_mem _ hq)) p hp

theorem addTiles_nonempty (now : Int) (date : Chars) :
    ∀ (tiles : List Tile) (m : List (Chars × List ScheduleEvent)),
      (∀ p ∈ m, p.2 ≠ []) → ∀ p ∈ addTiles now date m tiles, p.2 ≠ [] := by
  intro tiles
  induction tiles with
  | nil => intro m hm; exact hm
  | cons tile rest ih =>
    intro m hm
    simp only [addTiles]
    cases buildEvent now tile with
    | none => exact ih m hm
    | some e => exact ih _ (pushAssoc_nonempty date e m hm)

theorem addCells_nonempty (now : Int) :
    ∀ (cells : List DayCell) (m : List (Chars × List ScheduleEvent)),
      (∀ p ∈ m, p.2 ≠ []) → ∀ p ∈ addCells now m cells, p.2 ≠ [] := by
  intro cells
  induction cells with
  | nil => intro m hm; exact hm
  | cons cell rest ih =>
    intro m hm
    simp only [addCells]
    by_cases hd : cell.date.isEmpty
    · simp only [if_pos hd]; exact ih m hm
    · simp only [if_neg hd]
      exact ih _ (addTiles_nonempty now cell.date cell.tiles m hm)

theorem parseSchedule_nonempty (cells : List DayCell) (now : Int) :
    ∀ p ∈ parseSchedule cells now, p.2 ≠ [] :=
  addCells_nonempty now cells [] (by intro p hp; cases hp)

/-- A tile is stamped when its tooltip begins with one of the two status
markers, which makes the built event carry `lastChangedAt = Timestamp.now()`. -/
def tileStamped (t : Tile) : Bool :=
  match t.tooltip with
  | none => false
  | some tt => (statusShift (tooltipLines tt)).2.1

def noStatusTiles (cells : List DayCell) : Bool :=
  cells.all (fun c => c.tiles.all (fun t => !tileStamped t))

theorem buildEvent_time_free (now1 now2 : Int) (t : Tile)
    (h : tileStamped t = false) : buildEvent now1 t = buildEvent now2 t := by
  unfold tileStamped at h
  unfold buildEvent
  cases htt : t.tooltip with
  | none => rfl
  | some tt =>
    rw [htt] at h
    have h2 : (statusShift (tooltipLines tt)).2.1 = false := h
    by_cases he : tt.isEmpty
    · simp [he]
    · simp only [he, Bool.false_eq_true, if_false, h2]

theorem addTiles_time_free (now1 now2 : Int) (date : Chars) :
    ∀ (tiles : List Tile) (m : List (Chars × List ScheduleEvent)),
      (∀ t ∈ tiles, tileStamped t = false) →
      addTiles now1 date m tiles = addTiles now2 date m tiles := by
  intro tiles
  induction tiles with
  | nil => intro m _; rfl
  | cons tile rest ih =>
    intro m hm
    have h1 : buildEvent now1 tile = buildEvent now2 tile :=
      buildEvent_time_free now1 now2 tile (hm tile (List.mem_cons_self _ _))
    simp only [addTiles, h1]
    cases buildEvent now2 tile with
    | none => exact ih m (fun t ht => hm t (List.mem_cons_of_mem _ ht))
    | some e => exact ih _ (fun t ht => hm t (List.mem_cons_of_mem _ ht))

theorem addCells_time_free (now1 now2 : Int) :
    ∀ (cells : List DayCell) (m : List (Chars × List ScheduleEvent)),
      noStatusTiles cells = true →
      addCells now1 m cells = addCells now2 m cells := by
  intro cells
  induction cells with
  | nil => intro m _; rfl
  | cons cell rest ih =>
    intro m hns
    simp only [noStatusTiles, List.all_cons, Bool.and_eq_true] at hns
    have hrest : noStatusTiles rest = true := hns.2
    have hcell : ∀ t ∈ cell.tiles, tileStamped t = false := by
      intro t ht
      have := List.all_eq_true.mp hns.1 t ht
      simpa using this
    simp only [addCells]
    by_cases hd : cell.date.isEmpty
    · simp only [hd, if_true]; exact ih m hrest
    · simp only [hd, Bool.false_eq_true, if_false]
      rw [addTiles_time_free now1 now2 cell.date cell.tiles m hcell]
      exact ih _ hrest

/-! ## The claims -/

set_option maxRecDepth 100000

/-- C1, counterexample: the persister performs no hash comparison, so running
the same scrape twice against the store produced by the first run still
issues one full-replacement write on the second run — not zero. -/
theorem c1_counterexample :
    (scrapeInvocation emptyStore (str "57") (str "stu") 0 exPlainCells).1.length = 1 ∧
    (scrapeInvocation
        (scrapeInvocation emptyStore (str "57") (str "stu") 0 exPlainCells).2
        (str "57") (str "stu") 0 exPlainCells).1.length = 1 := by
  constructor
  · decide
  · decide

/-- C1, amended: the persister computes each day's hash and stores it in the
record, but never reads a previously stored hash: the batch it commits is
independent of the store's contents, and it contains one full-replacement
write for every parsed day — so persisting an identical parsed day twice
performs exactly one write on each call. -/
theorem c1_write_batch_ignores_store (store store2 : Store)
    (schoolId studentId : Chars) (now : Int) (cells : List DayCell) :
    (scrapeInvocation store schoolId studentId now cells).1 =
      (scrapeInvocation store2 schoolId studentId now cells).1 ∧
    (scrapeInvocation store schoolId studentId now cells).1.length =
      (parseSchedule cells now).length := by
  constructor
  · rfl
  · show (persistOps schoolId studentId now (parseSchedule cells now)).length = _
    rw [persistOps_length]
    have hfil : (parseSchedule cells now).filter (fun p => !p.2.isEmpty) =
        parseSchedule cells now := by
      apply List.filter_eq_self.mpr
      intro p hp
      have := parseSchedule_nonempty cells now p hp
      simpa [List.isEmpty_iff] using this
    rw [hfil]

/-- C2, counterexample: a tooltip starting with the `Ændret!` status marker
stamps `lastChangedAt = Timestamp.now()` into the event, which enters the
serialized event list and hence the day hash: two runs on identical input at
different instants produce different parses and different hashes. -/
theorem c2_counterexample :
    noStatusTiles exStatusCells = false ∧
    parseSchedule exStatusCells 0 ≠ parseSchedule exStatusCells 1 ∧
    (parseSchedule exStatusCells 0).map (fun p => dayHash p.2) ≠
      (parseSchedule exStatusCells 1).map (fun p => dayHash p.2) := by
  refine ⟨by decide, by decide, by decide⟩

/-- C2, amended: parsing and hashing are pure functions of the fetched HTML
provided no tooltip begins with a status marker (`Ændret!`/`Aflyst!`); for
such input two runs at different instants produce identical parses and
identical per-day hashes. -/
theorem c2_pure_without_status_marks (cells : List DayCell) (now1 now2 : Int)
    (h : noStatusTiles cells = true) :
    parseSchedule cells now1 = parseSchedule cells now2 ∧
    (parseSchedule cells now1).map (fun p => dayHash p.2) =
      (parseSchedule cells now2).map (fun p => dayHash p.2) := by
  have key : parseSchedule cells now1 = parseSchedule cells now2 :=
    addCells_time_free now1 now2 cells [] h
  exact ⟨key, by rw [key]⟩

/-- C2, witness for the amended theorem at a concrete unmarked input. -/
theorem c2_pure_witness :
    parseSchedule exPlainCells 0 = parseSchedule exPlainCells 1 :=
  (c2_pure_without_status_marks exPlainCells 0 1 (by decide)).1

/-- C3, counterexample: a final response with a robot marker in its body but
a non-2xx status makes the fetch throw the generic HTTP error — the `ok`
check runs before the marker scan, so the outcome is not `SessionInvalid`. -/
theorem c3_counterexample :
    hasRobotMarker exRobot500.body = true ∧
    respOk exRobot500 = false ∧
    fetchLectioWithCookies exRobot500 (fun _ => exRobot500) = .httpError 500 ∧
    fetchLectioWithCookies exRobot500 (fun _ => exRobot500) ≠ .sessionInvalid := by
  refine ⟨by decide, by decide, by decide, by decide⟩

/-- C3, amended: a robot marker in the final response's body converts the
outcome to `SessionInvalid` only when that response has a 2xx status; a
non-2xx final response throws the HTTP error without the body being
inspected. -/
theorem c3_marker_needs_ok_status (r0 : HttpResponse) (net : Nat → HttpResponse)
    (hok : respOk (followRedirects net maxRedirects r0 0).1 = true)
    (hmark : hasRobotMarker (followRedirects net maxRedirects r0 0).1.body = true) :
    fetchLectioWithCookies r0 net = .sessionInvalid := by
  simp [fetchLectioWithCookies, hok, hmark]

/-- C3, witness for the amended theorem. -/
theorem c3_marker_witness :
    fetchLectioWithCookies exRobot200 (fun _ => exRobot200) = .sessionInvalid :=
  c3_marker_needs_ok_status exRobot200 (fun _ => exRobot200) (by decide) (by decide)

/-- C5, counterexample: the time-line branch overwrites the captured time
string on every matching line, so with two time-range lines the tile's time
string is the second one, not the first. -/
theorem c5_counterexample :
    postStatusLines exTwoTimesTooltip =
      [str "Fag", str "20/10-2025 08:10 til 09:50", str "20/10-2025 10:00 til 11:30"] ∧
    isTimeLine (str "20/10-2025 08:10 til 09:50") = true ∧
    (fieldsLoop true {} (postStatusLines exTwoTimesTooltip)).time =
      str "20/10-2025 10:00 til 11:30" ∧
    str "20/10-2025 10:00 til 11:30" ≠ str "20/10-2025 08:10 til 09:50" := by
  refine ⟨by decide, by decide, by decide, by decide⟩

/-- The last element of a list, with a default for the empty list. -/
def lastD : List Chars → Chars → Chars
  | [], d => d
  | x :: t, _ => lastD t x

theorem classifyLine_time_of_not (first : Bool) (st : TooltipFields)
    (line : Chars) (rest : List Chars) (h : isTimeLine line = false) :
    (classifyLine first st line rest).time = st.time := by
  unfold classifyLine
  rw [h]
  simp only [Bool.false_eq_true, if_false]
  split_ifs <;> rfl

theorem fieldsLoop_time (ls : List Chars) :
    ∀ (first : Bool) (st : TooltipFields),
      (fieldsLoop first st ls).time = lastD (ls.filter isTimeLine) st.time := by
  induction ls with
  | nil => intro first st; rfl
  | cons l rest ih =>
    intro first st
    show (fieldsLoop false (classifyLine first st l rest) rest).time = _
    by_cases h : isTimeLine l
    · have ht : (classifyLine first st l rest).time = l := by
        unfold classifyLine; rw [if_pos h]
      rw [ih false, ht, List.filter_cons, if_pos h]
      rfl
    · rw [ih false, classifyLine_time_of_not first st l rest (by simpa using h),
        List.filter_cons, if_neg h]

/-- C5, amended: the time string of a tile is the LAST line (after the
optional status shift) containing a time-range token, each matching line
overwriting the previous capture; when no line matches it stays empty. -/
theorem c5_last_time_line (tooltip : Chars) :
    (fieldsLoop true {} (postStatusLines tooltip)).time =
      lastD ((postStatusLines tooltip).filter isTimeLine) [] :=
  fieldsLoop_time (postStatusLines tooltip) true {}

theorem isPrefixOf_append_self : ∀ p m : Chars, p.isPrefixOf (p ++ m) = true := by
  intro p m
  induction p with
  | nil => simp [List.isPrefixOf]
  | cons c t ih => simp [List.isPrefixOf, ih]

/-- C6, counterexample: the homework section does not stop at a blank line or
at a `Note:` label — it collects every remaining non-empty line, so the
homework of this tooltip is `"a Note: b"`, not `"a"`. -/
theorem c6_counterexample :
    postStatusLines exHomeworkTooltip = [str "Lektier: a", str "", str "Note: b"] ∧
    (fieldsLoop true {} (postStatusLines exHomeworkTooltip)).homework = some (str "a Note: b") ∧
    str "a Note: b" ≠ str "a" ∧
    (fieldsLoop true {} (postStatusLines exHomeworkTooltip)).note = some (str "b") := by
  refine ⟨by decide, by decide, by decide, by decide⟩

theorem classifyLine_homework_inv (first : Bool) (st : TooltipFields)
    (line : Chars) (rest : List Chars)
    (h : (startsWithChars line (str "Lektier:") && !isTimeLine line) = false) :
    (classifyLine first st line rest).homework = st.homework := by
  unfold classifyLine
  by_cases h1 : isTimeLine line
  · rw [if_pos h1]
  · have hsw : startsWithChars line (str "Lektier:") = false := by
      rcases Bool.and_eq_false_iff.mp h with hs | hs
      · exact hs
      · simp at hs
        exact absurd hs h1
    rw [if_neg h1]
    split_ifs with a b c d e f
    · rfl
    · rfl
    · rfl
    · rfl
    · rfl
    · exact absurd f (by simp [hsw])
    · rfl

theorem classifyLine_note_inv (first : Bool) (st : TooltipFields)
    (line : Chars) (rest : List Chars)
    (h : (startsWithChars line (str "Note:") && !isTimeLine line) = false) :
    (classifyLine first st line rest).note = st.note := by
  unfold classifyLine
  by_cases h1 : isTimeLine line
  · rw [if_pos h1]
  · have hsw : startsWithChars line (str "Note:") = false := by
      rcases Bool.and_eq_false_iff.mp h with hs | hs
      · exact hs
      · simp at hs
        exact absurd hs h1
    rw [if_neg h1]
    split_ifs with a b c d e f
    · rfl
    · rfl
    · rfl
    · rfl
    · exact absurd e (by simp [hsw])
    · rfl
    · rfl

theorem fieldsLoop_homework_frozen :
    ∀ (ls : List Chars) (first : Bool) (st : TooltipFields),
      (∀ l ∈ ls, (startsWithChars l (str "Lektier:") && !isTimeLine l) = false) →
      (fieldsLoop first st ls).homework = st.homework := by
  intro ls
  induction ls with
  | nil => intro first st _; rfl
  | cons l rest ih =>
    intro first st hls
    show (fieldsLoop false (classifyLine first st l rest) rest).homework = _
    rw [ih false _ (fun x hx => hls x (List.mem_cons_of_mem _ hx)),
      classifyLine_homework_inv first st l rest (hls l (List.mem_cons_self _ _))]

theorem fieldsLoop_note_frozen :
    ∀ (ls : List Chars) (first : Bool) (st : TooltipFields),
      (∀ l ∈ ls, (startsWithChars l (str "Note:") && !isTimeLine l) = false) →
      (fieldsLoop first st ls).note = st.note := by
  intro ls
  induction ls with
  | nil => intro first st _; rfl
  | cons l rest ih =>
    intro first st hls
    show (fieldsLoop false (classifyLine first st l rest) rest).note = _
    rw [ih false _ (fun x hx => hls x (List.mem_cons_of_mem _ hx)),
      classifyLine_note_inv first st l rest (hls l (List.mem_cons_self _ _))]

theorem classifyLine_lektier (first : Bool) (st : TooltipFields)
    (x : Chars) (rest : List Chars)
    (ht : isTimeLine (str "Lektier:" ++ x) = false) :
    classifyLine first st (str "Lektier:" ++ x) rest =
      { st with homework := some (homeworkJoin (str "Lektier:" ++ x) rest) } := by
  have h1 : startsWithChars (str "Lektier:" ++ x) (str "Hold:") = false := rfl
  have h2 : startsWithChars (str "Lektier:" ++ x) (str "Lærer:") = false := rfl
  have h3 : startsWithChars (str "Lektier:" ++ x) (str "Lærere:") = false := rfl
  have h4 : startsWithChars (str "Lektier:" ++ x) (str "Lokale:") = false := rfl
  have h5 : startsWithChars (str "Lektier:" ++ x) (str "Note:") = false := rfl
  have h7 : startsWithChars (str "Lektier:" ++ x) (str "Lektier:") = true :=
    isPrefixOf_append_self (str "Lektier:") x
  have hall : labelList.all (fun lab => !startsWithChars (str "Lektier:" ++ x) lab) = false := by
    simp [labelList, List.all_cons, h7]
  unfold classifyLine
  rw [ht]
  simp only [hall, h1, h2, h3, h4, h5, h7, Bool.false_and, Bool.or_self,
    Bool.false_eq_true, if_false, if_true, Bool.false_or]

theorem classifyLine_noteLabel (first : Bool) (st : TooltipFields)
    (y : Chars) (rest : List Chars)
    (ht : isTimeLine (str "Note:" ++ y) = false) :
    classifyLine first st (str "Note:" ++ y) rest =
      { st with note := some (noteJoin (str "Note:" ++ y) rest) } := by
  have h1 : startsWithChars (str "Note:" ++ y) (str "Hold:") = false := rfl
  have h2 : startsWithChars (str "Note:" ++ y) (str "Lærer:") = false := rfl
  have h3 : startsWithChars (str "Note:" ++ y) (str "Lærere:") = false := rfl
  have h4 : startsWithChars (str "Note:" ++ y) (str "Lokale:") = false := rfl
  have h5 : startsWithChars (str "Note:" ++ y) (str "Note:") = true :=
    isPrefixOf_append_self (str "Note:") y
  have hall : labelList.all (fun lab => !startsWithChars (str "Note:" ++ y) lab) = false := by
    simp [labelList, List.all_cons, h5]
  unfold classifyLine
  rw [ht]
  simp only [hall, h1, h2, h3, h4, h5, Bool.false_and, Bool.or_self,
    Bool.false_eq_true, if_false, if_true, Bool.false_or]

/-- C6, amended: the `Note:` section consumes its own line plus the following
lines up to (excluding) a blank line or a `Lektier:` label, joined by single
spaces; the homework section consumes its own line plus EVERY remaining
non-empty line — blank lines are skipped rather than terminating it, and a
later `Note:` label does not stop it (both as long as no later line
re-triggers the same section). -/
theorem c6_note_and_homework_sections (pre post : List Chars) (x y : Chars)
    (first : Bool) (st : TooltipFields) :
    (isTimeLine (str "Lektier:" ++ x) = false →
      (∀ l ∈ post, (startsWithChars l (str "Lektier:") && !isTimeLine l) = false) →
      (fieldsLoop first st (pre ++ (str "Lektier:" ++ x) :: post)).homework =
        some (homeworkJoin (str "Lektier:" ++ x) post)) ∧
    (isTimeLine (str "Note:" ++ y) = false →
      (∀ l ∈ post, (startsWithChars l (str "Note:") && !isTimeLine l) = false) →
      (fieldsLoop first st (pre ++ (str "Note:" ++ y) :: post)).note =
        some (noteJoin (str "Note:" ++ y) post)) := by
  induction pre generalizing first st with
  | nil =>
    constructor
    · intro ht hpost
      show (fieldsLoop false (classifyLine first st (str "Lektier:" ++ x) post) post).homework = _
      rw [fieldsLoop_homework_frozen post false _ hpost, classifyLine_lektier first st x post ht]
    · intro ht hpost
      show (fieldsLoop false (classifyLine first st (str "Note:" ++ y) post) post).note = _
      rw [fieldsLoop_note_frozen post false _ hpost, classifyLine_noteLabel first st y post ht]
  | cons p pre ih =>
    constructor
    · intro ht hpost
      show (fieldsLoop false (classifyLine first st p (pre ++ _ :: post))
        (pre ++ (str "Lektier:" ++ x) :: post)).homework = _
      exact (ih false _).1 ht hpost
    · intro ht hpost
      show (fieldsLoop false (classifyLine first st p (pre ++ _ :: post))
        (pre ++ (str "Note:" ++ y) :: post)).note = _
      exact (ih false _).2 ht hpost

/-- C6, witness for the amended theorem at the counterexample's tooltip
lines. -/
theorem c6_sections_witness :
    (fieldsLoop true {} ((str "Lektier:" ++ str " a") :: [str "", str "Note: b"])).homework =
      some (homeworkJoin (str "Lektier:" ++ str " a") [str "", str "Note: b"]) :=
  (c6_note_and_homework_sections [] [str "", str "Note: b"] (str " a") (str " b")
    true {}).1 (by decide) (by decide)

/-- C7, counterexample: with every response a 302 pointing onward, the loop
stops after 5 hops with a redirect response, and the fetch then throws the
HTTP error instead of surfacing that response as a result. -/
theorem c7_counterexample :
    (followRedirects (fun _ => exRedirect) maxRedirects exRedirect 0).2 = maxRedirects ∧
    (followRedirects (fun _ => exRedirect) maxRedirects exRedirect 0).1 = exRedirect ∧
    fetchLectioWithCookies exRedirect (fun _ => exRedirect) = .httpError 302 ∧
    fetchLectioWithCookies exRedirect (fun _ => exRedirect) ≠ .success exRedirect.body := by
  refine ⟨by decide, by decide, by decide, by decide⟩

/-- C7, amended: when the redirect cap is exhausted and the last obtained
response is still a redirect, that response fails the `ok` check and the
fetch throws `HttpError` with its status — the response is not returned as a
result. -/
theorem c7_cap_exceeded_is_http_error (r0 : HttpResponse) (net : Nat → HttpResponse)
    (_hcap : (followRedirects net maxRedirects r0 0).2 = maxRedirects)
    (h3xx : isRedirectStatus (followRedirects net maxRedirects r0 0).1.status = true) :
    fetchLectioWithCookies r0 net =
      .httpError (followRedirects net maxRedirects r0 0).1.status := by
  have hok : respOk (followRedirects net maxRedirects r0 0).1 = false := by
    simp only [respOk]
    revert h3xx
    simp only [isRedirectStatus]
    generalize (followRedirects net maxRedirects r0 0).1.status = s
    intro h3xx
    simp only [Bool.or_eq_true, beq_iff_eq] at h3xx
    rcases h3xx with ((((rfl | rfl) | rfl) | rfl) | rfl) <;> rfl
  simp [fetchLectioWithCookies, hok]

/-- C7, witness for the amended theorem. -/
theorem c7_cap_witness :
    fetchLectioWithCookies exRedirect (fun _ => exRedirect) =
      .httpError ((followRedirects (fun _ => exRedirect) maxRedirects exRedirect 0).1.status) :=
  c7_cap_exceeded_is_http_error exRedirect (fun _ => exRedirect) (by decide) (by decide)

/-- C8: `parseDateTime` requires an `HH:MM` group, so the documented all-day
format `"20/10-2025 Hele dagen"` does not match and the tile is skipped —
while the worked examples with explicit times behave as described (end time
on the start's calendar day, or start plus two hours when absent), and a
failing tile skips only itself, not the whole day. -/
theorem c8_all_day_is_skipped :
    parseDateTime (str "20/10-2025 08:10 til 09:50") = some (utcMinutes 2025 10 20 8 10) ∧
    eventEndAt (str "20/10-2025 08:10 til 09:50") (utcMinutes 2025 10 20 8 10) =
      utcMinutes 2025 10 20 9 50 ∧
    eventEndAt (str "20/10-2025 08:10") (utcMinutes 2025 10 20 8 10) =
      utcMinutes 2025 10 20 8 10 + 120 ∧
    parseDateTime (str "20/10-2025 Hele dagen") = none ∧
    buildEvent 0 { brikid := str "ABS1", tooltip := some (str "20/10-2025 Hele dagen\nHold: 2a") } = none ∧
    (parseSchedule exAllDayCells 0).map (fun p => (p.1, p.2.length)) = [(str "2025-10-20", 1)] := by
  refine ⟨by decide, by decide, by decide, by decide, by decide, by decide⟩

/-- C4, counterexample: the lookahead `[^,]+=` is satisfied by attribute text
such as `; path=`, so the comma inside the `Expires=` date of this single
cookie definition is a split point: one definition yields two parts and two
parsed tuples, the second with a garbage name. -/
theorem c4_counterexample :
    splitSetCookie exCookieHeader =
      [str "a=1; Expires=Thu", str " 01 Jan 2026 00:00:00 GMT; path=/"] ∧
    (splitSetCookie exCookieHeader).length = 2 ∧
    (parseAllCookies exCookieHeader).map Prod.fst =
      [str "a", str "01 Jan 2026 00:00:00 GMT; path"] ∧
    (parseAllCookies exCookieHeader).length = 2 := by
  refine ⟨by decide, by decide, by decide, by decide⟩

/-- The capture of `^([^=]+)` over a cookie definition: the run before the
first `=`. -/
def cookieNameOf (c : Chars) : Chars := c.takeWhile (fun x => x != '=')

/-- The cookie definition starts with `name=` for a nonempty, comma-free
name. -/
def cookieNameOk (c : Chars) : Bool :=
  !(cookieNameOf c).isEmpty &&
  (cookieNameOf c).length < c.length &&
  !(cookieNameOf c).any (fun x => x == ',')

/-- No internal comma of the definition satisfies the split lookahead: after
each comma, the run up to the next comma (or the end of the definition)
contains no `=` at offset one or more.  An `Expires=` date followed only by
non-`=` text up to the next boundary satisfies this; one followed by an
attribute such as `path=/` does not. -/
def commaSafe : Chars → Bool
  | [] => true
  | c :: rest =>
    if c == ',' then !lookaheadNameEq rest && commaSafe rest
    else commaSafe rest

def goodCookie (c : Chars) : Bool := cookieNameOk c && commaSafe c

theorem takeWhile_append_comma :
    ∀ a b : Chars, (a ++ ',' :: b).takeWhile (fun x => x != ',') =
      a.takeWhile (fun x => x != ',') := by
  intro a b
  induction a with
  | nil => simp [List.takeWhile_cons]
  | cons x t ih =>
    by_cases hx : (x != ',') = true
    · simp [List.takeWhile_cons, hx, ih]
    · simp only [Bool.not_eq_true] at hx
      simp [List.takeWhile_cons, hx]

theorem lookahead_append_comma (a b : Chars) :
    lookaheadNameEq (a ++ ',' :: b) = lookaheadNameEq a := by
  unfold lookaheadNameEq
  rw [takeWhile_append_comma]

theorem takeWhile_append_all {p : Char → Bool} :
    ∀ a b : Chars, (∀ x ∈ a, p x = true) →
      (a ++ b).takeWhile p = a ++ b.takeWhile p := by
  intro a b
  induction a with
  | nil => intro _; rfl
  | cons x t ih =>
    intro ha
    have hx : p x = true := ha x (List.mem_cons_self _ _)
    simp [List.takeWhile_cons, hx, ih (fun y hy => ha y (List.mem_cons_of_mem _ hy))]

theorem dropWhile_head_not {p : Char → Bool} :
    ∀ (l : Chars) (c : Char) (t : Chars), l.dropWhile p = c :: t → p c = false := by
  intro l
  induction l with
  | nil => intro c t h; cases h
  | cons x xs ih =>
    intro c t h
    by_cases hx : p x = true
    · rw [List.dropWhile_cons, if_pos hx] at h
      exact ih c t h
    · rw [List.dropWhile_cons, if_neg hx] at h
      cases h
      simpa using hx

/-- A well-named cookie definition decomposes as `name ++ = ++ tail`. -/
theorem cookie_decomp (c : Chars) (hok : cookieNameOk c = true) :
    ∃ tail, c = cookieNameOf c ++ '=' :: tail := by
  have hsplit : c.takeWhile (fun x => x != '=') ++ c.dropWhile (fun x => x != '=') = c :=
    List.takeWhile_append_dropWhile _ _
  simp only [cookieNameOk, Bool.and_eq_true] at hok
  have hlen : (cookieNameOf c).length < c.length := by
    have := hok.1.2
    simpa using this
  have hd : c.dropWhile (fun x => x != '=') ≠ [] := by
    intro hnil
    rw [hnil, List.append_nil] at hsplit
    rw [show c.takeWhile (fun x => x != '=') = cookieNameOf c from rfl] at hsplit
    rw [hsplit] at hlen
    exact Nat.lt_irrefl _ hlen
  obtain ⟨e, tail, het⟩ := List.exists_cons_of_ne_nil hd
  have he : (e != '=') = false := dropWhile_head_not c e tail het
  have he2 : e = '=' := by
    simpa using he
  refine ⟨tail, ?_⟩
  conv_lhs => rw [← hsplit]
  rw [het, he2]
  rfl

theorem lookahead_of_good (c : Chars) (hok : cookieNameOk c = true) (k : Chars) :
    lookaheadNameEq (c ++ k) = true := by
  obtain ⟨tail, hc⟩ := cookie_decomp c hok
  simp only [cookieNameOk, Bool.and_eq_true] at hok
  have hne : cookieNameOf c ≠ [] := by
    have := hok.1.1
    simpa [List.isEmpty_iff] using this
  have hnc : ∀ x ∈ cookieNameOf c, (x != ',') = true := by
    intro x hx
    have := hok.2
    rw [Bool.not_eq_true', List.any_eq_false] at this
    have hx2 := this x hx
    simpa using hx2
  obtain ⟨n0, n', hn⟩ := List.exists_cons_of_ne_nil hne
  unfold lookaheadNameEq
  rw [hc, List.append_assoc, List.cons_append,
    takeWhile_append_all (cookieNameOf c) ('=' :: (tail ++ k)) hnc,
    List.takeWhile_cons]
  simp only [show (('=' : Char) != ',') = true from rfl, if_true]
  rw [hn]
  simp [List.any_append]

theorem splitCookiesAux_last :
    ∀ c acc : Chars, commaSafe c = true → splitCookiesAux acc c = [acc.reverse ++ c] := by
  intro c
  induction c with
  | nil => intro acc _; simp [splitCookiesAux]
  | cons x t ih =>
    intro acc hsafe
    simp only [splitCookiesAux]
    by_cases hx : (x == ',') = true
    · simp only [commaSafe, if_pos hx, Bool.and_eq_true] at hsafe
      have hlook : lookaheadNameEq t = false := by
        have := hsafe.1
        simpa using this
      rw [if_pos hx, if_neg (by simp [hlook]), ih (x :: acc) hsafe.2]
      simp
    · simp only [commaSafe, if_neg hx] at hsafe
      rw [if_neg hx, ih (x :: acc) hsafe]
      simp

theorem splitCookiesAux_boundary :
    ∀ c acc k : Chars, commaSafe c = true → lookaheadNameEq k = true →
      splitCookiesAux acc (c ++ ',' :: k) =
        (acc.reverse ++ c) :: splitCookiesAux [] k := by
  intro c
  induction c with
  | nil =>
    intro acc k _ hk
    show splitCookiesAux acc (',' :: k) = _
    simp only [splitCookiesAux]
    rw [if_pos (show ((',' : Char) == ',') = true from rfl), if_pos hk]
    simp
  | cons x t ih =>
    intro acc k hsafe hk
    show splitCookiesAux acc (x :: (t ++ ',' :: k)) = _
    simp only [splitCookiesAux]
    by_cases hx : (x == ',') = true
    · simp only [commaSafe, if_pos hx, Bool.and_eq_true] at hsafe
      have hlook : lookaheadNameEq (t ++ ',' :: k) = false := by
        rw [lookahead_append_comma]
        have := hsafe.1
        simpa using this
      rw [if_pos hx, if_neg (by simp [hlook]), ih (x :: acc) k hsafe.2 hk]
      simp
    · simp only [commaSafe, if_neg hx] at hsafe
      rw [if_neg hx, ih (x :: acc) k hsafe hk]
      simp

theorem splitSetCookie_join :
    ∀ cs : List Chars, cs ≠ [] → (∀ c ∈ cs, goodCookie c = true) →
      splitSetCookie (joinComma cs) = cs := by
  intro cs
  induction cs with
  | nil => intro h _; exact absurd rfl h
  | cons c rest ih =>
    intro _ hgood
    have hc : goodCookie c = true := hgood c (List.mem_cons_self _ _)
    rw [goodCookie, Bool.and_eq_true] at hc
    cases rest with
    | nil =>
      show splitCookiesAux [] c = [c]
      rw [splitCookiesAux_last c [] hc.2]
      rfl
    | cons c2 rest2 =>
      have hc2ok : cookieNameOk c2 = true := by
        have := hgood c2 (List.mem_cons_of_mem _ (List.mem_cons_self _ _))
        rw [goodCookie, Bool.and_eq_true] at this
        exact this.1
      have hjoin : ∃ r, joinComma (c2 :: rest2) = c2 ++ r := by
        cases rest2 with
        | nil => exact ⟨[], by simp [joinComma]⟩
        | cons c3 rest3 => exact ⟨',' :: joinComma (c3 :: rest3), rfl⟩
      obtain ⟨r, hr⟩ := hjoin
      have hlook : lookaheadNameEq (joinComma (c2 :: rest2)) = true := by
        rw [hr]
        exact lookahead_of_good c2 hc2ok r
      show splitCookiesAux [] (c ++ ',' :: joinComma (c2 :: rest2)) = _
      rw [splitCookiesAux_boundary c [] (joinComma (c2 :: rest2)) hc.2 hlook]
      have hih := ih (by simp) (fun x hx => hgood x (List.mem_cons_of_mem _ hx))
      unfold splitSetCookie at hih
      rw [hih]
      rfl

theorem nameValueOf_of_good (c : Chars) (hok : cookieNameOk c = true) :
    ∃ v, nameValueOf c = some (cookieNameOf c, v) := by
  obtain ⟨tail, hc⟩ := cookie_decomp c hok
  have hne : cookieNameOf c ≠ [] := by
    simp only [cookieNameOk, Bool.and_eq_true] at hok
    have := hok.1.1
    simpa [List.isEmpty_iff] using this
  refine ⟨tail.takeWhile (fun x => x != ';'), ?_⟩
  unfold nameValueOf
  have ht : c.takeWhile (fun x => x != '=') = cookieNameOf c := rfl
  have hdrop : c.drop (cookieNameOf c).length = '=' :: tail := by
    have h2 : (cookieNameOf c ++ '=' :: tail).drop (cookieNameOf c).length = '=' :: tail :=
      List.drop_left _ _
    rw [← hc] at h2
    exact h2
  rw [ht, if_neg (by simp [List.isEmpty_iff, hne]), hdrop]
  rfl

theorem setAssoc_fresh (k : Chars) (v : CookieVal) :
    ∀ m : List (Chars × CookieVal), (∀ e ∈ m, e.1 ≠ k) →
      setAssoc m k v = m ++ [(k, v)] := by
  intro m
  induction m with
  | nil => intro _; rfl
  | cons e rest ih =>
    intro hm
    obtain ⟨k0, v0⟩ := e
    have hk0 : k0 ≠ k := hm (k0, v0) (List.mem_cons_self _ _)
    show (if k0 = k then _ else _) = _
    rw [if_neg hk0, ih (fun x hx => hm x (List.mem_cons_of_mem _ hx))]
    rfl

theorem collectCookies_spec :
    ∀ (parts : List Chars) (acc : List (Chars × CookieVal)),
      (∀ p ∈ parts, cookieNameOk p = true) →
      (acc.map Prod.fst ++ parts.map (fun p => trimChars (cookieNameOf p))).Nodup →
      (collectCookies parts acc).map Prod.fst =
        acc.map Prod.fst ++ parts.map (fun p => trimChars (cookieNameOf p)) := by
  intro parts
  induction parts with
  | nil => intro acc _ _; simp [collectCookies]
  | cons p rest ih =>
    intro acc hok hnd
    obtain ⟨v, hv⟩ := nameValueOf_of_good p (hok p (List.mem_cons_self _ _))
    show (collectCookies (p :: rest) acc).map Prod.fst = _
    unfold collectCookies
    rw [hv]
    show (collectCookies rest
      (setAssoc acc (trimChars (cookieNameOf p))
        ⟨trimChars v, expiresRawOf p⟩)).map Prod.fst = _
    have hfresh : ∀ e ∈ acc, e.1 ≠ trimChars (cookieNameOf p) := by
      intro e he heq
      have hmem1 : e.1 ∈ acc.map Prod.fst := List.mem_map_of_mem _ he
      have hmem2 : trimChars (cookieNameOf p) ∈
          (p :: rest).map (fun q => trimChars (cookieNameOf q)) := by
        simp
      have hdisj := (List.nodup_append.mp hnd).2.2
      exact hdisj hmem1 (heq ▸ hmem2)
    rw [setAssoc_fresh (trimChars (cookieNameOf p)) ⟨trimChars v, expiresRawOf p⟩ acc hfresh]
    have hnd2 : ((acc ++ [(trimChars (cookieNameOf p), (⟨trimChars v, expiresRawOf p⟩ : CookieVal))]).map Prod.fst ++
        rest.map (fun q => trimChars (cookieNameOf q))).Nodup := by
      rw [List.map_append]
      rw [List.append_assoc]
      simpa using hnd
    rw [ih _ (fun q hq => hok q (List.mem_cons_of_mem _ hq)) hnd2]
    simp

/-- C4, amended: the split fires at a comma exactly when the following run of
non-comma characters contains `=` past its first character.  When every
cookie definition starts with a nonempty comma-free `name=` and none of its
internal commas is followed by such a run (in particular, when an `Expires=`
date's comma is followed only by non-`=` text up to the next boundary — e.g.
when `Expires` is the last attribute), and the trimmed names are distinct,
the parser splits a comma-joined header of N definitions at exactly the N-1
boundaries and recovers exactly N tuples with the expected names; a
definition whose comma-containing value is followed by an `=`-bearing
attribute such as `path=/` violates the condition and produces extra
tuples. -/
theorem c4_wellformed_split (cs : List Chars) (h1 : cs ≠ [])
    (h2 : ∀ c ∈ cs, goodCookie c = true)
    (h3 : (cs.map (fun c => trimChars (cookieNameOf c))).Nodup) :
    splitSetCookie (joinComma cs) = cs ∧
    (parseAllCookies (joinComma cs)).map Prod.fst =
      cs.map (fun c => trimChars (cookieNameOf c)) ∧
    (parseAllCookies (joinComma cs)).length = cs.length := by
  have hsplit := splitSetCookie_join cs h1 h2
  have hok : ∀ c ∈ cs, cookieNameOk c = true := by
    intro c hc
    have := h2 c hc
    rw [goodCookie, Bool.and_eq_true] at this
    exact this.1
  have hmap : (parseAllCookies (joinComma cs)).map Prod.fst =
      cs.map (fun c => trimChars (cookieNameOf c)) := by
    unfold parseAllCookies
    rw [hsplit]
    have := collectCookies_spec cs [] hok (by simpa using h3)
    simpa using this
  refine ⟨hsplit, hmap, ?_⟩
  have := congrArg List.length hmap
  simpa using this

/-- The well-formed two-cookie header used to witness the amended C4
theorem: the `Expires=` date is the last attribute of the first cookie. -/
def exGoodCookies : List Chars :=
  [str "a=1; Expires=Thu, 01 Jan 2026 00:00:00 GMT", str " b=2; path=/"]

/-- C4, witness for the amended theorem: the glued header splits back into
the two definitions and yields the two trimmed names. -/
theorem c4_wellformed_witness :
    splitSetCookie (joinComma exGoodCookies) = exGoodCookies ∧
    (parseAllCookies (joinComma exGoodCookies)).map Prod.fst =
      exGoodCookies.map (fun c => trimChars (cookieNameOf c)) := by
  have h := c4_wellformed_split exGoodCookies (by decide) (by decide) (by decide)
  exact ⟨h.1, h.2.1⟩

theorem fanGo_nil (batch : List Chars) (total skipped : Nat) :
    fanGo [] batch total skipped =
      if batch.isEmpty then { calls := [], total := total, skipped := skipped }
      else { calls := [batch], total := total + batch.length, skipped := skipped } := rfl

theorem fanGo_cons_skip (d : FanDoc) (ds : List FanDoc) (batch : List Chars)
    (total skipped : Nat) (hv : fanValid d = false) :
    fanGo (d :: ds) batch total skipped = fanGo ds batch total (skipped + 1) := by
  simp only [fanGo, hv, Bool.false_eq_true, if_false]

theorem fanGo_cons_flush (d : FanDoc) (ds : List FanDoc) (batch : List Chars)
    (total skipped : Nat) (hv : fanValid d = true)
    (hf : BATCH_SIZE_LIMIT ≤ (batch ++ [fanBody d]).length) :
    fanGo (d :: ds) batch total skipped =
      { fanGo ds [] (total + (batch ++ [fanBody d]).length) skipped with
        calls := (batch ++ [fanBody d]) ::
          (fanGo ds [] (total + (batch ++ [fanBody d]).length) skipped).calls } := by
  simp only [fanGo, hv, if_true, hf]

theorem fanGo_cons_push (d : FanDoc) (ds : List FanDoc) (batch : List Chars)
    (total skipped : Nat) (hv : fanValid d = true)
    (hf : ¬ BATCH_SIZE_LIMIT ≤ (batch ++ [fanBody d]).length) :
    fanGo (d :: ds) batch total skipped = fanGo ds (batch ++ [fanBody d]) total skipped := by
  simp only [fanGo, hv, if_true, hf, if_false]

theorem fanGo_spec :
    ∀ (docs : List FanDoc) (batch : List Chars) (total skipped : Nat),
      batch.length < BATCH_SIZE_LIMIT →
      (fanGo docs batch total skipped).calls.flatten =
          batch ++ (docs.filter fanValid).map fanBody ∧
      (fanGo docs batch total skipped).total =
          total + batch.length + (docs.filter fanValid).length ∧
      (fanGo docs batch total skipped).skipped =
          skipped + (docs.filter (fun d => !fanValid d)).length ∧
      ∀ b ∈ (fanGo docs batch total skipped).calls,
        b ≠ [] ∧ b.length ≤ BATCH_SIZE_LIMIT := by
  intro docs
  induction docs with
  | nil =>
    intro batch total skipped hb
    rw [fanGo_nil]
    by_cases he : batch.isEmpty
    · have hbe : batch = [] := by simpa [List.isEmpty_iff] using he
      subst hbe
      simp
    · have hbe : batch ≠ [] := by simpa [List.isEmpty_iff] using he
      rw [if_neg (by simpa [List.isEmpty_iff] using he)]
      refine ⟨by simp, by simp, by simp, ?_⟩
      intro b hbmem
      simp only [List.mem_singleton] at hbmem
      subst hbmem
      exact ⟨hbe, Nat.le_of_lt hb⟩
  | cons d ds ih =>
    intro batch total skipped hb
    by_cases hv : fanValid d
    · by_cases hf : BATCH_SIZE_LIMIT ≤ (batch ++ [fanBody d]).length
      · have hlen : (batch ++ [fanBody d]).length = BATCH_SIZE_LIMIT := by
          simp only [List.length_append, List.length_singleton] at hf ⊢
          omega
        rw [fanGo_cons_flush d ds batch total skipped hv hf]
        obtain ⟨ihj, iht, ihs, ihc⟩ :=
          ih [] (total + (batch ++ [fanBody d]).length) skipped
            (by simp [BATCH_SIZE_LIMIT])
        refine ⟨?_, ?_, ?_, ?_⟩
        · show (batch ++ [fanBody d]) ++
              (fanGo ds [] (total + (batch ++ [fanBody d]).length) skipped).calls.flatten =
            batch ++ (List.filter fanValid (d :: ds)).map fanBody
          rw [ihj]
          simp [List.filter_cons, hv]
        · show (fanGo ds [] (total + (batch ++ [fanBody d]).length) skipped).total =
            total + batch.length + (List.filter fanValid (d :: ds)).length
          rw [iht, List.filter_cons, if_pos hv]
          simp only [List.length_cons, List.length_append, List.length_nil]
          omega
        · show (fanGo ds [] (total + (batch ++ [fanBody d]).length) skipped).skipped =
            skipped + (List.filter (fun x => !fanValid x) (d :: ds)).length
          rw [ihs]
          simp [List.filter_cons, hv]
        · intro b hbmem
          have hbmem2 : b = batch ++ [fanBody d] ∨
              b ∈ (fanGo ds [] (total + (batch ++ [fanBody d]).length) skipped).calls := by
            simpa [List.mem_cons] using hbmem
          rcases hbmem2 with rfl | hbmem2
          · constructor
            · intro hnil
              rw [hnil] at hlen
              simp [BATCH_SIZE_LIMIT] at hlen
            · exact Nat.le_of_eq hlen
          · exact ihc b hbmem2
      · have hlt : (batch ++ [fanBody d]).length < BATCH_SIZE_LIMIT :=
          Nat.lt_of_not_le hf
        rw [fanGo_cons_push d ds batch total skipped hv hf]
        obtain ⟨ihj, iht, ihs, ihc⟩ := ih (batch ++ [fanBody d]) total skipped hlt
        refine ⟨?_, ?_, ?_, ihc⟩
        · rw [ihj]
          simp [List.filter_cons, hv]
        · rw [iht, List.filter_cons, if_pos hv]
          simp only [List.length_cons, List.length_append, List.length_nil]
          omega
        · rw [ihs]
          simp [List.filter_cons, hv]
    · have hv2 : fanValid d = false := by simpa using hv
      rw [fanGo_cons_skip d ds batch total skipped hv2]
      obtain ⟨ihj, iht, ihs, ihc⟩ := ih batch total (skipped + 1) hb
      refine ⟨?_, ?_, ?_, ihc⟩
      · rw [ihj]
        simp [List.filter_cons, hv2]
      · rw [iht]
        simp [List.filter_cons, hv2]
      · rw [ihs, List.filter_cons, if_pos (show (!fanValid d) = true by simp [hv2])]
        simp only [List.length_cons]
        omega

/-- C9: the fan-out publishes exactly the valid credential records, in
publish calls of at most `BATCH_SIZE_LIMIT = 100` jobs each; every record
missing `studentId` or `schoolId` is counted as skipped, excluded from the
reported total, and does not abort the enumeration of the remaining records;
and 250 valid records produce exactly 3 publish calls of sizes 100, 100, 50
with reported total 250. -/
theorem c9_fanout_batching :
    (∀ docs : List FanDoc,
      (fanout docs).calls.flatten = (docs.filter fanValid).map fanBody ∧
      (fanout docs).total = (docs.filter fanValid).length ∧
      (fanout docs).skipped = (docs.filter (fun d => !fanValid d)).length ∧
      ∀ b ∈ (fanout docs).calls, b ≠ [] ∧ b.length ≤ BATCH_SIZE_LIMIT) ∧
    (fanout (List.replicate 250 exValidDoc)).calls.map List.length = [100, 100, 50] ∧
    (fanout (List.replicate 250 exValidDoc)).total = 250 ∧
    (fanout [exValidDoc, exInvalidDoc, exValidDoc]).total = 2 ∧
    (fanout [exValidDoc, exInvalidDoc, exValidDoc]).skipped = 1 := by
  refine ⟨?_, by decide, by decide, by decide, by decide⟩
  intro docs
  have h := fanGo_spec docs [] 0 0 (by simp [BATCH_SIZE_LIMIT])
  simpa [fanout] using h

/-- C9, witness: the single publish call of a one-record fan-out is non-empty
and within the batch limit. -/
theorem c9_fanout_witness :
    ([fanBody exValidDoc] : List Chars) ≠ [] ∧
      ([fanBody exValidDoc] : List Chars).length ≤ BATCH_SIZE_LIMIT :=
  (c9_fanout_batching.1 [exValidDoc]).2.2.2 [fanBody exValidDoc] (by decide)

/-- C10: every write of a scrape invocation is a wholesale `set` at
`(schoolId, studentId, date)` for a date with at least one successfully
parsed event; every other document is left unchanged, and no stored document
is ever deleted. -/
theorem c10_frame_effect (store : Store) (schoolId studentId : Chars) (now : Int)
    (cells : List DayCell) (k : DocKey) :
    (∀ op ∈ (scrapeInvocation store schoolId studentId now cells).1,
      ∃ date events, (date, events) ∈ parseSchedule cells now ∧ events ≠ [] ∧
        op = .set (schoolId, studentId, date)
          (mkScheduleDay schoolId studentId now date events)) ∧
    (k ∉ (scrapeInvocation store schoolId studentId now cells).1.map writeKey →
      (scrapeInvocation store schoolId studentId now cells).2 k = store k) ∧
    (∀ day, store k = some day →
      ∃ day2, (scrapeInvocation store schoolId studentId now cells).2 k = some day2) := by
  refine ⟨?_, ?_, ?_⟩
  · intro op hop
    exact persistOps_mem schoolId studentId now (parseSchedule cells now) op hop
  · intro hk
    exact applyOps_not_written k _ store hk
  · intro day hday
    exact applyOps_some k _ store day hday

/-- A store holding one day record at a key the example scrape does not
touch. -/
def exOtherKey : DocKey := (str "57", str "stu", str "2025-10-19")

def exStoreWithOther : Store := fun k =>
  if k = exOtherKey then some (mkScheduleDay (str "57") (str "stu") 0 (str "2025-10-19") [])
  else none

/-- C10, witness: the record stored under a date the scrape did not parse is
untouched. -/
theorem c10_frame_witness :
    (scrapeInvocation exStoreWithOther (str "57") (str "stu") 0 exPlainCells).2 exOtherKey =
      exStoreWithOther exOtherKey :=
  (c10_frame_effect exStoreWithOther (str "57") (str "stu") 0 exPlainCells exOtherKey).2.1
    (by decide)

end PingApi
